import Mathlib

/-!
Shallow embedding of the balance-aggregation core of the PaymeCrypto Flask
backend (src/Backend-flask/app.py).  Python scalar JSON values are modelled
by JVal, floats by exact rationals, raised exceptions by Except.error, and
the external collaborators (web3 RPC clients, the Solana client and the
CoinGecko HTTP provider) by an explicit environment record Env.  Every
definition mirrors the corresponding Python function; line numbers in the
doc comments refer to app.py.
-/

namespace Payme

/-- A scalar Python/JSON value, as they appear in provider responses and in
the fields of the dictionaries the backend builds. -/
inductive JVal where
  | null : JVal
  | num : ℚ → JVal
  | str : String → JVal
  | bool : Bool → JVal
deriving DecidableEq

/-- Python truthiness of a scalar value (`if val:`). -/
def truthy : JVal → Bool
  | .null => false
  | .num q => q ≠ 0
  | .str s => s ≠ ""
  | .bool b => b

/-- Python `a or b` on scalar values. -/
def pyOr (a b : JVal) : JVal :=
  if truthy a then a else b

/-- Parse of a plain decimal literal (optional sign, digits, optional
fractional part), the fragment of Python float-string syntax the
embedding needs.  None models a ValueError. -/
def parseDecimal? (s : String) : Option ℚ :=
  let core : String → Option ℚ := fun t =>
    match t.splitOn "." with
    | [a] => (a.toNat?).map (fun n => (n : ℚ))
    | [a, b] =>
      match a.toNat?, b.toNat? with
      | some n, some f => some ((n : ℚ) + (f : ℚ) / 10 ^ b.length)
      | _, _ => none
    | _ => none
  if s.startsWith "-" then (core (s.drop 1)).map Neg.neg else core s

/-- Python `float(v)` on a scalar value: numbers and booleans convert,
numeric strings parse, anything else raises. -/
def pyFloat : JVal → Except String ℚ
  | .num q => .ok q
  | .bool b => .ok (if b then 1 else 0)
  | .str s =>
    match parseDecimal? s with
    | some q => .ok q
    | none => .error "ValueError"
  | .null => .error "TypeError"

/-- Python `v.upper()`: defined on strings, raises AttributeError on every
other scalar value. -/
def pyUpper : JVal → Except String String
  | .str s => .ok s.toUpper
  | _ => .error "AttributeError"

/-- One element of the CoinGecko `/coins/markets` response, restricted to
the keys the backend reads.  A missing key is None; a present key holds an
arbitrary scalar value, so malformed provider data is representable. -/
structure MarketEntry where
  id : Option JVal
  current_price : Option JVal
  price_change_percentage_24h : Option JVal
  symbol : Option JVal
  name : Option JVal
  image : Option JVal
deriving DecidableEq

/-- The empty dict that `markets.get(coin_id) or {}` substitutes. -/
def emptyMarketEntry : MarketEntry :=
  { id := none, current_price := none, price_change_percentage_24h := none,
    symbol := none, name := none, image := none }

/-- The `markets` dict of app.py lines 405-410: entries with a truthy id
are inserted keyed by that id, later entries overwriting earlier ones, and
looked up by the coin id string.  Keeping the last matching entry of the
list is exactly that insert-overwrite behaviour. -/
def marketsLookup (l : List MarketEntry) (k : String) : Option MarketEntry :=
  (l.filter (fun m => truthy (m.id.getD .null) &&
      (m.id.getD .null == JVal.str k))).getLast?

/-- A caller-supplied explicit token entry (the dict-shaped elements of the
request's `tokens` array, restricted to the keys the backend reads). -/
structure TokenSpec where
  chain : Option String
  contract : Option String
  symbol : Option String
  name : Option String
deriving DecidableEq

/-- The fields extracted from a successful
`/coins/{platform}/contract/{addr}` enrichment response (app.py lines
476-484).  The inner try is modelled all-or-nothing: a response in which
the extraction itself raises is represented as no response. -/
structure EnrichInfo where
  usd_price : Option JVal
  price_chg : Option JVal
  name : Option JVal
  symbol : Option JVal
  logo : Option JVal
deriving DecidableEq

/-- The `native` line of the result (app.py lines 377-398). -/
structure NativeLine where
  symbol : String
  balance : ℚ
  usd_price : Option ℚ
  usd_value : ℚ
  price_change_24h : JVal
deriving DecidableEq

/-- One element of the result's `tokens` list (app.py lines 426-454 and
488-500). -/
structure TokenLine where
  coin_id : Option String
  symbol : String
  name : JVal
  contract : Option JVal
  platform : Option String
  chain : Option String
  balance : ℚ
  usd_price : Option ℚ
  price_change_24h : JVal
  usd_value : ℚ
  logo : JVal
deriving DecidableEq

/-- The full result object of compute_balance_for_chain. -/
structure AggResult where
  chain : String
  address : String
  native : Option NativeLine
  tokens : List TokenLine
  errors : List String
  total_usd : ℚ
deriving DecidableEq

/-- NATIVE_COIN_TO_CHAIN (app.py lines 110-119), in source order. -/
def NATIVE_COIN_TO_CHAIN : List (String × String) :=
  [("ethereum", "ethereum"), ("binancecoin", "bsc"), ("polygon", "polygon"),
   ("avalanche-2", "avax"), ("arbitrum", "arbitrum"), ("optimism", "optimism"),
   ("fantom", "fantom"), ("solana", "solana")]

/-- PLATFORM_TO_CHAIN_KEY (app.py lines 98-107), in source order. -/
def PLATFORM_TO_CHAIN_KEY : List (String × String) :=
  [("ethereum", "ethereum"), ("binance-smart-chain", "bsc"),
   ("polygon-pos", "polygon"), ("avalanche", "avax"),
   ("arbitrum-one", "arbitrum"), ("optimistic-ethereum", "optimism"),
   ("fantom", "fantom"), ("solana", "solana")]

/-- The keys of the compiled-in RPC_URLS defaults (app.py lines 66-77).
Config reload only adds or overrides entries, never removes them, so these
keys are configured in every reachable state of RPC_URLS. -/
def defaultRpcKeys : List String :=
  ["ethereum", "bsc", "polygon", "avax", "arbitrum", "optimism",
   "fantom", "cronos", "solana"]

/-- The external collaborators and ambient state of one request: the merged
RPC configuration, the web3 / Solana RPC clients and the CoinGecko
provider.  Except values model calls that raise inside their adapter. -/
structure Env where
  /-- chain keys added to RPC_URLS by env/file config merging. -/
  extraRpc : List String
  /-- HTTPProvider or Web3 construction fails for this chain key. -/
  web3Fail : String → Bool
  /-- Web3.toChecksumAddress on a string argument. -/
  checksum : String → Except String String
  /-- w3.eth.get_balance in wei, keyed by chain and checksum address. -/
  ethGetBalance : String → String → Except String ℕ
  /-- ERC20 decimals() call, keyed by chain and checksum contract. -/
  decimalsCall : String → String → Except Unit ℕ
  /-- ERC20 balanceOf(addr) raw integer result. -/
  balanceOfCall : String → String → String → Except String ℕ
  /-- value returned by cached_markets for an ids list at the moments this
  request calls it (the cache layer itself is modelled separately). -/
  marketsFn : List String → List MarketEntry
  /-- value returned by cached_coin_detail: None for a missing, failed or
  falsy detail, otherwise the `platforms` map as an association list. -/
  coinDetail : String → Option (List (String × JVal))
  /-- the optional solana dependency is importable. -/
  solanaAvailable : Bool
  /-- Solana get_balance: lamports when the response carries a value. -/
  solRpc : String → Except String (Option ℕ)
  /-- contract-metadata enrichment response (None = request failed, non-ok
  status, or extraction raised). -/
  contractInfo : String → String → Option EnrichInfo
  /-- raw CoinGecko /coins/markets fetch for the markets cache model,
  keyed by joined key, per_page and call time; None = request failed. -/
  fetchMarkets : String → ℕ → ℚ → Option (List MarketEntry)

/-- Membership of a chain key in RPC_URLS after config merging: the
compiled-in defaults are always present (merging never deletes). -/
def rpcConfigured (env : Env) (k : String) : Bool :=
  defaultRpcKeys.contains k || env.extraRpc.contains k

/-- get_web3 (app.py lines 212-229) as handle availability: configured and
provider construction succeeds; creation failures return None. -/
def get_web3 (env : Env) (k : String) : Bool :=
  rpcConfigured env k && !env.web3Fail k

/-- Web3.toChecksumAddress applied to an arbitrary scalar (the coin-id
path can pass a non-string platform value through): non-strings raise. -/
def checksumJ (env : Env) : JVal → Except String String
  | .str s => env.checksum s
  | _ => .error "TypeError"

/-- get_native_evm_balance (app.py lines 299-309): every exception inside
is caught and mapped to None; wei is converted at 10^18. -/
def get_native_evm_balance (env : Env) (chain_key address : String) : Option ℚ :=
  if get_web3 env chain_key then
    match env.checksum address with
    | .error _ => none
    | .ok ca =>
      match env.ethGetBalance chain_key ca with
      | .error _ => none
      | .ok wei => some ((wei : ℚ) / 10 ^ 18)
  else none

/-- get_erc20_balance (app.py lines 311-330): checksums both addresses,
reads decimals() with default 18 on failure, then balanceOf; every
exception is caught and mapped to None. -/
def get_erc20_balance (env : Env) (chain_key : String) (contract : JVal)
    (address : String) : Option ℚ :=
  if get_web3 env chain_key then
    match checksumJ env contract, env.checksum address with
    | .ok ct, .ok ca =>
      let dec : ℕ := match env.decimalsCall chain_key ct with
        | .ok d => d
        | .error _ => 18
      match env.balanceOfCall chain_key ct ca with
      | .ok raw => some ((raw : ℚ) / 10 ^ dec)
      | .error _ => none
    | _, _ => none
  else none

/-- get_solana_balance (app.py lines 332-344): None unless the optional
dependency is present and the RPC response carries a lamports value. -/
def get_solana_balance (env : Env) (address : String) : Option ℚ :=
  if env.solanaAvailable then
    match env.solRpc address with
    | .ok (some lamports) => some ((lamports : ℚ) / 10 ^ 9)
    | _ => none
  else none

/-- The fixed platform preference order of find_contract_for_coin_id
(app.py line 286). -/
def preferList : List String :=
  ["ethereum", "binance-smart-chain", "polygon-pos", "avalanche",
   "arbitrum-one", "optimistic-ethereum"]

/-- The {contract, platform} pair find_contract_for_coin_id returns. -/
structure ContractRef where
  contract : JVal
  platform : String
deriving DecidableEq

/-- find_contract_for_coin_id (app.py lines 281-294): first truthy entry
of the platforms map in the fixed preference order, then the first truthy
entry in map order, else None. -/
def find_contract_for_coin_id (env : Env) (coin_id : String) : Option ContractRef :=
  match env.coinDetail coin_id with
  | none => none
  | some platforms =>
    match preferList.find? (fun p => truthy ((platforms.lookup p).getD .null)) with
    | some p => some ⟨(platforms.lookup p).getD .null, p⟩
    | none =>
      match platforms.find? (fun kv => truthy kv.2) with
      | some kv => some ⟨kv.2, kv.1⟩
      | none => none

/-! ## The markets cache (cached_markets, app.py lines 234-259) -/

/-- One _MARKETS_CACHE entry. -/
structure MCacheEntry where
  ts : ℚ
  data : List MarketEntry
deriving DecidableEq

/-- The _MARKETS_CACHE dict. -/
abbrev MarketsCache := List (String × MCacheEntry)

/-- Dict insert-or-overwrite keyed by the cache key. -/
def cacheInsert (st : MarketsCache) (k : String) (e : MCacheEntry) : MarketsCache :=
  match st with
  | [] => [(k, e)]
  | (k0, e0) :: rest =>
    if k0 = k then (k, e) :: rest else (k0, e0) :: cacheInsert rest k e

/-- Dict lookup on the cache. -/
def cacheLookup (st : MarketsCache) (k : String) : Option MCacheEntry :=
  match st with
  | [] => none
  | (k0, e0) :: rest => if k0 = k then some e0 else cacheLookup rest k

/-- Code-point lexicographic comparison of char lists: the order Python
`sorted` applies to strings. -/
def charsLe : List Char → List Char → Bool
  | [], _ => true
  | _ :: _, [] => false
  | a :: as, b :: bs =>
    if a.toNat < b.toNat then true
    else if b.toNat < a.toNat then false
    else charsLe as bs

/-- String comparison used by `sorted(ids)`. -/
def strLeB (a b : String) : Bool := charsLe a.data b.data

/-- The ordering relation of `sorted` as a proposition. -/
def strLeR (a b : String) : Prop := strLeB a b = true

instance : DecidableRel strLeR := fun a b => instDecidableEqBool (strLeB a b) true

/-- The cache key of cached_markets: the sorted, comma-joined ids list
(app.py line 237). -/
def marketsKey (ids : List String) : String :=
  String.intercalate "," (ids.insertionSort strLeR)

/-- cached_markets as a state-passing function: returns the data, the
updated cache and whether an upstream fetch was issued.  Empty ids lists
short-circuit; a fresh entry (age strictly below the 12 second TTL) is
served from cache; otherwise the provider is queried, successful responses
are stored, and failures return the empty list without storing. -/
def cached_markets (env : Env) (st : MarketsCache) (now : ℚ)
    (ids : List String) : List MarketEntry × MarketsCache × Bool :=
  if ids = [] then ([], st, false)
  else
    let key := marketsKey ids
    let hit :=
      match cacheLookup st key with
      | some e => if now - e.ts < 12 then some e.data else none
      | none => none
    match hit with
    | some data => (data, st, false)
    | none =>
      match env.fetchMarkets key ids.length now with
      | some data => (data, cacheInsert st key ⟨now, data⟩, true)
      | none => ([], st, true)

/-! ## compute_balance_for_chain (app.py lines 349-516) -/

/-- The body of the native-balance try block (app.py lines 361-398).
An error value is an exception reaching the enclosing except. -/
def nativeTryBody (env : Env) (chain address : String) : Except String NativeLine :=
  if rpcConfigured env chain && !(chain == "solana") then
    let native_bal := get_native_evm_balance env chain address
    let native_coin_id := (NATIVE_COIN_TO_CHAIN.find? (fun kv => kv.2 == chain)).map (·.1)
    let pricePCE : Except String (Option ℚ × JVal) :=
      match native_coin_id with
      | none => .ok (none, .null)
      | some cid =>
        match env.marketsFn [cid] with
        | [] => .ok (none, .null)
        | m :: _ =>
          match pyFloat (pyOr (m.current_price.getD (.num 0)) (.num 0)) with
          | .error e => .error e
          | .ok p => .ok (some p, m.price_change_percentage_24h.getD .null)
    match pricePCE with
    | .error e => .error e
    | .ok pricePC =>
      .ok { symbol := (native_coin_id.map String.toUpper).getD chain.toUpper,
            balance := native_bal.getD 0,
            usd_price := pricePC.1,
            usd_value := native_bal.getD 0 * (pricePC.1).getD 0,
            price_change_24h := pricePC.2 }
  else if chain == "solana" then
    let sol_bal := get_solana_balance env address
    let ms := env.marketsFn ["solana"]
    let priceE : Except String (Option ℚ) :=
      match ms with
      | [] => .ok none
      | m :: _ =>
        match pyFloat (pyOr (m.current_price.getD (.num 0)) (.num 0)) with
        | .error e => .error e
        | .ok p => .ok (some p)
    match priceE with
    | .error e => .error e
    | .ok price =>
      .ok { symbol := "SOL",
            balance := sol_bal.getD 0,
            usd_price := price,
            usd_value := sol_bal.getD 0 * price.getD 0,
            price_change_24h :=
              match ms with
              | [] => .null
              | m :: _ => m.price_change_percentage_24h.getD .null }
  else
    .ok { symbol := chain.toUpper, balance := 0, usd_price := none,
          usd_value := 0, price_change_24h := .null }

/-- The native step with its except clause (app.py lines 399-401): a raised
exception leaves native as None and appends a native_balance_error
message. -/
def nativeStep (env : Env) (chain address : String) :
    Option NativeLine × List String :=
  match nativeTryBody env chain address with
  | .ok n => (some n, [])
  | .error e => (none, ["native_balance_error: " ++ e])

/-- dict.fromkeys deduplication, keeping first occurrences in order
(app.py line 404). -/
def pyDedupAux (seen : List String) : List String → List String
  | [] => []
  | x :: xs =>
    if seen.contains x then pyDedupAux seen xs
    else x :: pyDedupAux (x :: seen) xs

def pyDedup (l : List String) : List String := pyDedupAux [] l

/-- The normalized coin-ids list of app.py line 404: drop falsy entries,
strip whitespace, deduplicate keeping first-seen order. -/
def normalizeCoinIds (coin_ids : List String) : List String :=
  pyDedup ((coin_ids.filter (fun c => !(c == ""))).map String.trim)

/-- The contract-found branch of the coin-id loop (app.py lines 416-438). -/
def coinContractLine (env : Env) (address : String)
    (marketsList : List MarketEntry) (coin_id : String) (fc : ContractRef) :
    Except String TokenLine :=
  let platform := fc.platform
  let chain_key := PLATFORM_TO_CHAIN_KEY.lookup platform
  let contract_addr := fc.contract
  let balance : Option ℚ :=
    match chain_key with
    | some ck =>
      if rpcConfigured env ck then get_erc20_balance env ck contract_addr address
      else none
    | none => none
  let m := (marketsLookup marketsList coin_id).getD emptyMarketEntry
  match pyFloat (pyOr (m.current_price.getD (.num 0)) (.num 0)) with
  | .error e => .error e
  | .ok usd_price =>
    match pyUpper (pyOr (m.symbol.getD .null) (.str "")) with
    | .error e => .error e
    | .ok s =>
      .ok
        { coin_id := some coin_id,
          symbol := if s = "" then coin_id.toUpper else s,
          name := pyOr (m.name.getD .null) (.str coin_id),
          contract := some contract_addr,
          platform := some platform,
          chain := chain_key,
          balance := balance.getD 0,
          usd_price := some usd_price,
          price_change_24h := m.price_change_percentage_24h.getD .null,
          usd_value := balance.getD 0 * usd_price,
          logo := m.image.getD .null }

/-- The contract-less branch of the coin-id loop (app.py lines 439-454).
Note that the name field reads m.get("name") without the `if m` guard its
sibling fields have, so a coin with no market entry raises. -/
def contractlessLine (marketsList : List MarketEntry) (coin_id : String) :
    Except String TokenLine :=
  match marketsLookup marketsList coin_id with
  | none =>
    -- the guarded price and symbol fields evaluate fine when m is None,
    -- then the unguarded m.get("name") raises AttributeError
    .error "AttributeError"
  | some m =>
    match pyFloat (pyOr (m.current_price.getD (.num 0)) (.num 0)) with
    | .error e => .error e
    | .ok p =>
      match pyUpper (pyOr (m.symbol.getD .null) (.str coin_id)) with
      | .error e => .error e
      | .ok symbol =>
        .ok
          { coin_id := some coin_id,
            symbol := symbol,
            name := pyOr (m.name.getD .null) (.str coin_id),
            contract := none,
            platform := none,
            chain := none,
            balance := 0,
            usd_price := some p,
            price_change_24h := m.price_change_percentage_24h.getD .null,
            usd_value := 0,
            logo := m.image.getD .null }

/-- Processing of one deduplicated coin id (app.py lines 412-454): None is
the native-chain skip, an error is an uncaught exception aborting the whole
request. -/
def processCoinId (env : Env) (chain address : String)
    (marketsList : List MarketEntry) (coin_id : String) :
    Except String (Option TokenLine) :=
  if NATIVE_COIN_TO_CHAIN.lookup coin_id == some chain then .ok none
  else
    match find_contract_for_coin_id env coin_id with
    | some fc =>
      if truthy fc.contract then
        (coinContractLine env address marketsList coin_id fc).map some
      else (contractlessLine marketsList coin_id).map some
    | none => (contractlessLine marketsList coin_id).map some

/-- The coin-id loop in order; any raised exception aborts the request. -/
def processCoinIds (env : Env) (chain address : String)
    (marketsList : List MarketEntry) : List String → Except String (List TokenLine)
  | [] => .ok []
  | cid :: rest =>
    match processCoinId env chain address marketsList cid with
    | .error e => .error e
    | .ok o =>
      match processCoinIds env chain address marketsList rest with
      | .error e => .error e
      | .ok more => .ok (match o with | some l => l :: more | none => more)

/-- The defaulted chain of an explicit token entry
(`t.get("chain") or chain`, app.py line 459). -/
def tchainOf (t : TokenSpec) (chain : String) : String :=
  match t.chain with
  | some c => if c = "" then chain else c
  | none => chain

/-- Processing of one explicit token entry (app.py lines 458-500, the body
of the per-entry try): None is the missing-contract skip, an error is an
exception reaching the per-entry except clause. -/
def perEntryExplicit (env : Env) (chain address : String) (t : TokenSpec) :
    Except String (Option TokenLine) :=
  let tchain := tchainOf t chain
  match t.contract with
  | none => .ok none
  | some c =>
    if c = "" then .ok none
    else
      let balance := get_erc20_balance env tchain (.str c) address
      let platform_for_cg :=
        (PLATFORM_TO_CHAIN_KEY.find? (fun kv => kv.2 == tchain)).map (·.1)
      let info? : Option EnrichInfo :=
        match platform_for_cg with
        | some pf => env.contractInfo pf c
        | none => none
      let usd_price : Option JVal := info?.bind (·.usd_price)
      let price_chg : Option JVal := info?.bind (·.price_chg)
      let coin_name : Option JVal := info?.bind (·.name)
      let coin_symbol : Option JVal := info?.bind (·.symbol)
      let logo : Option JVal := info?.bind (·.logo)
      match pyUpper (pyOr (coin_symbol.getD .null)
          (pyOr ((t.symbol.map JVal.str).getD .null) (.str ""))) with
      | .error e => .error e
      | .ok s =>
        let pricedE : Except String (Option ℚ) :=
          if truthy (usd_price.getD .null) then
            match pyFloat (usd_price.getD .null) with
            | .error e => .error e
            | .ok q => .ok (some q)
          else .ok none
        match pricedE with
        | .error e => .error e
        | .ok usd_price_q =>
          .ok (some
            { coin_id := none,
              symbol := if s = "" then c.take 6 else s,
              name := pyOr (coin_name.getD .null)
                (pyOr ((t.name.map JVal.str).getD .null) (.str c)),
              contract := some (.str c),
              platform := none,
              chain := some tchain,
              balance := balance.getD 0,
              usd_price := usd_price_q,
              price_change_24h := price_chg.getD .null,
              usd_value := balance.getD 0 * usd_price_q.getD 0,
              logo := logo.getD .null })

/-- The explicit-tokens loop (app.py lines 457-503): per-entry exceptions
are caught and appended as token_error messages; lines and error messages
each keep entry order. -/
def processTokens (env : Env) (chain address : String) :
    List TokenSpec → List TokenLine × List String
  | [] => ([], [])
  | t :: rest =>
    let r := processTokens env chain address rest
    match perEntryExplicit env chain address t with
    | .ok (some l) => (l :: r.1, r.2)
    | .ok none => r
    | .error e => (r.1, ("token_error:" ++ e) :: r.2)

/-- The totals pass (app.py lines 506-514): the native usd_value is added
when present and truthy, then every token usd_value. -/
def totalOf (native : Option NativeLine) (toks : List TokenLine) : ℚ :=
  let t0 : ℚ :=
    match native with
    | some n => if n.usd_value ≠ 0 then n.usd_value else 0
    | none => 0
  toks.foldl (fun acc tk => acc + tk.usd_value) t0

/-- compute_balance_for_chain (app.py lines 349-516).  An error value is
an exception escaping the function. -/
def compute_balance_for_chain (env : Env) (chain address : String)
    (coin_ids : List String) (tokens : List TokenSpec) :
    Except String AggResult :=
  let ne := nativeStep env chain address
  let ids := normalizeCoinIds coin_ids
  let marketsList := if ids.isEmpty then [] else env.marketsFn ids
  match processCoinIds env chain address marketsList ids with
  | .error e => .error e
  | .ok coinLines =>
    let tl := processTokens env chain address tokens
    let toks := coinLines ++ tl.1
    .ok { chain := chain, address := address, native := ne.1,
          tokens := toks, errors := ne.2 ++ tl.2,
          total_usd := totalOf ne.1 toks }

deriving instance DecidableEq for Except

/-! ## Derived notions used by the theorems -/

/-- The coin ids that survive dedup-normalization and the native-chain
skip of the coin-id loop. -/
def remainingIds (chain : String) (coin_ids : List String) : List String :=
  (normalizeCoinIds coin_ids).filter
    (fun cid => !(NATIVE_COIN_TO_CHAIN.lookup cid == some chain))

/-- The truthy contract values of an explicit-tokens list, in input
order. -/
def explicitContracts (tokens : List TokenSpec) : List JVal :=
  tokens.filterMap (fun t =>
    match t.contract with
    | some s => if s = "" then none else some (JVal.str s)
    | none => none)

/-- Number of token lines carrying a given coin id in a compute result
(0 when the call raised). -/
def coinIdCount (e : Except String AggResult) (cid : String) : ℕ :=
  match e with
  | .ok r => (r.tokens.filterMap TokenLine.coin_id).count cid
  | .error _ => 0

/-- The token line the explicit-tokens loop emits for an entry whose
defaulted chain has no configured RPC endpoint: zero balance, zero usd
value, no enrichment. -/
def zeroRpcLine (chain : String) (t : TokenSpec) (c : String) : TokenLine :=
  let s := (t.symbol.getD "").toUpper
  { coin_id := none,
    symbol := if s = "" then c.take 6 else s,
    name :=
      match t.name with
      | some n => if n = "" then .str c else .str n
      | none => .str c,
    contract := some (.str c),
    platform := none,
    chain := some (tchainOf t chain),
    balance := 0,
    usd_price := none,
    price_change_24h := .null,
    usd_value := 0,
    logo := .null }

/-! ## Concrete environments and results used by witnesses and
counterexamples -/

/-- An environment in which every upstream call fails: no config
overrides, all RPC calls error, the market provider returns nothing. -/
def envFail : Env :=
  { extraRpc := [],
    web3Fail := fun _ => false,
    checksum := fun _ => .error "bad address",
    ethGetBalance := fun _ _ => .error "rpc down",
    decimalsCall := fun _ _ => .error (),
    balanceOfCall := fun _ _ _ => .error "rpc down",
    marketsFn := fun _ => [],
    coinDetail := fun _ => none,
    solanaAvailable := false,
    solRpc := fun _ => .error "no solana",
    contractInfo := fun _ _ => none,
    fetchMarkets := fun _ _ _ => none }

/-- The result of an all-fail request on ethereum with no coin ids and no
explicit tokens. -/
def rFail : AggResult :=
  { chain := "ethereum", address := "0x1",
    native := some { symbol := "ETHEREUM", balance := 0, usd_price := none,
                     usd_value := 0, price_change_24h := .null },
    tokens := [], errors := [], total_usd := 0 }

/-- A market quote for binancecoin at 300 USD. -/
def entry300 : MarketEntry :=
  { id := some (.str "binancecoin"), current_price := some (.num 300),
    price_change_percentage_24h := none, symbol := some (.str "bnb"),
    name := some (.str "BNB"), image := none }

/-- bsc RPC unavailable (all balance calls fail) but the market provider
quotes binancecoin. -/
def envC3 : Env := { envFail with
  marketsFn := fun ids => if ids = ["binancecoin"] then [entry300] else [] }

/-- The result of a bsc request against envC3: priced native line with
zero balance and an empty errors list. -/
def rC3 : AggResult :=
  { chain := "bsc", address := "0xd",
    native := some { symbol := "BINANCECOIN", balance := 0, usd_price := some 300,
                     usd_value := 0, price_change_24h := .null },
    tokens := [], errors := [], total_usd := 0 }

/-- Coin details exist for the non-canonical ids eth and sol (contracts on
ethereum and solana respectively); everything else fails. -/
def envC4 : Env := { envFail with
  coinDetail := fun cid =>
    if cid = "eth" then some [("ethereum", .str "0xEEE")]
    else if cid = "sol" then some [("solana", .str "So111")]
    else none }

/-- A market quote for bitcoin. -/
def btcE : MarketEntry :=
  { id := some (.str "bitcoin"), current_price := some (.num 60000),
    price_change_percentage_24h := none, symbol := none, name := none,
    image := none }

/-- The provider answers the joined bitcoin,ethereum markets query. -/
def envC7 : Env := { envFail with
  fetchMarkets := fun key _ _ =>
    if key = "bitcoin,ethereum" then some [btcE] else none }

/-- A coin whose platforms map carries contracts on both polygon-pos and
binance-smart-chain but none on ethereum: the preference order must pick
binance-smart-chain even though polygon-pos comes first in the map. -/
def platsC6 : List (String × JVal) :=
  [("polygon-pos", .str "0xPOLY"), ("binance-smart-chain", .str "0xBNB")]

/-- Environment resolving coin detail for token-x to platsC6. -/
def envC6 : Env := { envFail with
  coinDetail := fun cid => if cid = "token-x" then some platsC6 else none }

/-- An explicit token entry with no contract field. -/
def tNoContract : TokenSpec :=
  { chain := none, contract := none, symbol := some "x", name := none }

/-- An explicit token entry with no chain field. -/
def tNoChain : TokenSpec :=
  { chain := none, contract := some "0xc2", symbol := none, name := none }

/-- An explicit token entry on a chain with no configured RPC endpoint. -/
def tDoge : TokenSpec :=
  { chain := some "dogechain", contract := some "0xc1", symbol := none,
    name := none }

/-- The native line of an ethereum request when balance and market calls
all fail. -/
def nativeEthFail : NativeLine :=
  { symbol := "ETHEREUM", balance := 0, usd_price := none, usd_value := 0,
    price_change_24h := .null }

/-- The token line envC4 produces for coin id eth. -/
def ethLineC4 : TokenLine :=
  { coin_id := some "eth", symbol := "ETH", name := .str "eth",
    contract := some (.str "0xEEE"), platform := some "ethereum",
    chain := some "ethereum", balance := 0, usd_price := some 0,
    price_change_24h := .null, usd_value := 0, logo := .null }

/-- The token line envC4 produces for coin id sol. -/
def solLineC4 : TokenLine :=
  { coin_id := some "sol", symbol := "SOL", name := .str "sol",
    contract := some (.str "So111"), platform := some "solana",
    chain := some "solana", balance := 0, usd_price := some 0,
    price_change_24h := .null, usd_value := 0, logo := .null }

/-- The result of the eth/eth/sol request against envC4. -/
def rC4 : AggResult :=
  { chain := "ethereum", address := "0xa", native := some nativeEthFail,
    tokens := [ethLineC4, solLineC4], errors := [], total_usd := 0 }

/-- The result of the eth/eth/sol request against envC4 with the
additional explicit token tDoge. -/
def rC5 : AggResult :=
  { chain := "ethereum", address := "0xa", native := some nativeEthFail,
    tokens := [ethLineC4, solLineC4, zeroRpcLine "ethereum" tDoge "0xc1"],
    errors := [], total_usd := 0 }

/-- The line the explicit loop emits for tNoChain on an ethereum request
when all upstream calls fail. -/
def c9Line : TokenLine :=
  { coin_id := none, symbol := "0xc2", name := .str "0xc2",
    contract := some (.str "0xc2"), platform := none,
    chain := some "ethereum", balance := 0, usd_price := none,
    price_change_24h := .null, usd_value := 0, logo := .null }

/-! ## Shared lemmas -/

/-- The native contribution to total_usd as the spec states it: the
native usd_value when a native line is present, else 0. -/
def nativeUsdValue : Option NativeLine → ℚ
  | some n => n.usd_value
  | none => 0

theorem foldl_add_usd (l : List TokenLine) (a : ℚ) :
    l.foldl (fun acc tk => acc + tk.usd_value) a =
      a + (l.map TokenLine.usd_value).sum := by
  induction l generalizing a with
  | nil => simp
  | cons t rest ih => simp [List.foldl, ih, add_assoc]

theorem totalOf_eq (n : Option NativeLine) (l : List TokenLine) :
    totalOf n l = nativeUsdValue n + (l.map TokenLine.usd_value).sum := by
  cases n with
  | none => simp [totalOf, nativeUsdValue, foldl_add_usd]
  | some nl =>
    by_cases h : nl.usd_value = 0 <;>
      simp [totalOf, nativeUsdValue, foldl_add_usd, h]

/-- Inversion of an ok result of compute_balance_for_chain. -/
theorem compute_ok_inv {env : Env} {chain address : String}
    {coin_ids : List String} {tokens : List TokenSpec} {r : AggResult}
    (h : compute_balance_for_chain env chain address coin_ids tokens = .ok r) :
    ∃ coinLines,
      processCoinIds env chain address
        (if (normalizeCoinIds coin_ids).isEmpty then []
         else env.marketsFn (normalizeCoinIds coin_ids))
        (normalizeCoinIds coin_ids) = .ok coinLines ∧
      r = { chain := chain, address := address,
            native := (nativeStep env chain address).1,
            tokens := coinLines ++ (processTokens env chain address tokens).1,
            errors := (nativeStep env chain address).2 ++
              (processTokens env chain address tokens).2,
            total_usd := totalOf (nativeStep env chain address).1
              (coinLines ++ (processTokens env chain address tokens).1) } := by
  unfold compute_balance_for_chain at h
  cases hpc : processCoinIds env chain address
      (if (normalizeCoinIds coin_ids).isEmpty then []
       else env.marketsFn (normalizeCoinIds coin_ids))
      (normalizeCoinIds coin_ids) with
  | error e => simp only [hpc] at h; exact absurd h (by simp)
  | ok cls =>
    simp only [hpc, Except.ok.injEq] at h
    exact ⟨cls, rfl, h.symm⟩

theorem coinContractLine_coin_id {env : Env} {address : String}
    {marketsList : List MarketEntry} {coin_id : String} {fc : ContractRef}
    {l : TokenLine}
    (h : coinContractLine env address marketsList coin_id fc = .ok l) :
    l.coin_id = some coin_id := by
  simp only [coinContractLine] at h
  split at h
  · exact absurd h (by simp)
  · split at h
    · exact absurd h (by simp)
    · simp only [Except.ok.injEq] at h
      rw [← h]

theorem contractlessLine_coin_id {marketsList : List MarketEntry}
    {coin_id : String} {l : TokenLine}
    (h : contractlessLine marketsList coin_id = .ok l) :
    l.coin_id = some coin_id := by
  simp only [contractlessLine] at h
  split at h
  · exact absurd h (by simp)
  · split at h
    · exact absurd h (by simp)
    · split at h
      · exact absurd h (by simp)
      · simp only [Except.ok.injEq] at h
        rw [← h]

theorem processCoinId_cases {env : Env} {chain address : String}
    {marketsList : List MarketEntry} {coin_id : String}
    {o : Option TokenLine}
    (h : processCoinId env chain address marketsList coin_id = .ok o) :
    (o = none ∧ (NATIVE_COIN_TO_CHAIN.lookup coin_id == some chain) = true) ∨
    (∃ l, o = some l ∧ l.coin_id = some coin_id ∧
      (NATIVE_COIN_TO_CHAIN.lookup coin_id == some chain) = false) := by
  unfold processCoinId at h
  split at h
  · next hg => simp only [Except.ok.injEq] at h; exact Or.inl ⟨h.symm, hg⟩
  · next hg =>
    right
    have hg' : (NATIVE_COIN_TO_CHAIN.lookup coin_id == some chain) = false :=
      Bool.of_not_eq_true hg
    split at h
    · split at h
      · cases hcc : coinContractLine env address marketsList coin_id ‹ContractRef› with
        | error e => rw [hcc] at h; exact absurd h (by simp [Except.map])
        | ok l =>
          rw [hcc] at h
          simp only [Except.map, Except.ok.injEq] at h
          exact ⟨l, h.symm, coinContractLine_coin_id hcc, hg'⟩
      · cases hcl : contractlessLine marketsList coin_id with
        | error e => rw [hcl] at h; exact absurd h (by simp [Except.map])
        | ok l =>
          rw [hcl] at h
          simp only [Except.map, Except.ok.injEq] at h
          exact ⟨l, h.symm, contractlessLine_coin_id hcl, hg'⟩
    · cases hcl : contractlessLine marketsList coin_id with
      | error e => rw [hcl] at h; exact absurd h (by simp [Except.map])
      | ok l =>
        rw [hcl] at h
        simp only [Except.map, Except.ok.injEq] at h
        exact ⟨l, h.symm, contractlessLine_coin_id hcl, hg'⟩

theorem processCoinIds_map_coin_id {env : Env} {chain address : String}
    {marketsList : List MarketEntry} {ids : List String} {ls : List TokenLine}
    (h : processCoinIds env chain address marketsList ids = .ok ls) :
    ls.map TokenLine.coin_id =
      (ids.filter
        (fun cid => !(NATIVE_COIN_TO_CHAIN.lookup cid == some chain))).map some := by
  induction ids generalizing ls with
  | nil =>
    simp only [processCoinIds, Except.ok.injEq] at h
    simp [← h]
  | cons cid rest ih =>
    unfold processCoinIds at h
    cases h1 : processCoinId env chain address marketsList cid with
    | error e => rw [h1] at h; exact absurd h (by simp)
    | ok o =>
      rw [h1] at h
      cases h2 : processCoinIds env chain address marketsList rest with
      | error e => rw [h2] at h; exact absurd h (by simp)
      | ok more =>
        rw [h2] at h
        simp only [Except.ok.injEq] at h
        rcases processCoinId_cases h1 with ⟨ho, hskip⟩ | ⟨l, ho, hcid, hkeep⟩
        · subst ho
          simp only [List.filter, hskip, Bool.not_true, ← h]
          exact ih h2
        · subst ho
          simp only [List.filter, hkeep, Bool.not_false, ← h, List.map, hcid]
          exact congrArg _ (ih h2)

/-! ## C1: the total_usd invariant -/

/-- C1: whenever compute_balance_for_chain returns a result, its total_usd
equals the native usd_value (0 when native is null) plus the sum of the
usd_value of every token line; missing upstream values have already been
substituted by zeros in those fields. -/
theorem total_usd_invariant (env : Env) (chain address : String)
    (coin_ids : List String) (tokens : List TokenSpec) (r : AggResult)
    (h : compute_balance_for_chain env chain address coin_ids tokens = .ok r) :
    r.total_usd = nativeUsdValue r.native + (r.tokens.map TokenLine.usd_value).sum := by
  obtain ⟨coinLines, -, hr⟩ := compute_ok_inv h
  subst hr
  exact totalOf_eq _ _

/-- Witness: the all-upstream-fail request on ethereum with no coin ids
and no explicit tokens satisfies the total_usd invariant. -/
theorem total_usd_invariant_witness :
    rFail.total_usd = nativeUsdValue rFail.native +
      (rFail.tokens.map TokenLine.usd_value).sum :=
  total_usd_invariant envFail "ethereum" "0x1" [] [] rFail
    (by with_unfolding_all decide)

/-! ## C2: compute_balance_for_chain can raise -/

/-- C2 (code bug): with every upstream call failing, a request for the
single unknown coin id "notacoin" makes compute_balance_for_chain raise an
AttributeError instead of returning a result: the contract-less token
branch reads m.get("name") on a missing market entry without the `if m`
guard used by the neighbouring fields (app.py line 445). -/
theorem compute_raises_on_unpriced_contractless_coin :
    compute_balance_for_chain envFail "ethereum" "0xabc" ["notacoin"] [] =
      .error "AttributeError" := by
  with_unfolding_all decide

/-! ## Lemmas on the explicit-tokens loop -/

theorem perEntryExplicit_skip {env : Env} {chain address : String}
    {t : TokenSpec} (h : t.contract = none ∨ t.contract = some "") :
    perEntryExplicit env chain address t = .ok none := by
  rcases h with h | h <;> simp [perEntryExplicit, h]

theorem perEntryExplicit_ok_some {env : Env} {chain address : String}
    {t : TokenSpec} {l : TokenLine}
    (h : perEntryExplicit env chain address t = .ok (some l)) :
    l.coin_id = none ∧ l.chain = some (tchainOf t chain) ∧
    l.contract = (t.contract.map JVal.str) ∧
    l.balance =
      (get_erc20_balance env (tchainOf t chain)
        ((t.contract.map JVal.str).getD .null) address).getD 0 := by
  simp only [perEntryExplicit] at h
  split at h
  · exact absurd h (by simp)
  · next c hc =>
    split at h
    · exact absurd h (by simp)
    · split at h
      · exact absurd h (by simp)
      · split at h
        · exact absurd h (by simp)
        · simp only [Except.ok.injEq, Option.some.injEq] at h
          refine ⟨?_, ?_, ?_, ?_⟩ <;> simp [← h, hc]

theorem processTokens_append (env : Env) (chain address : String)
    (ts1 ts2 : List TokenSpec) :
    processTokens env chain address (ts1 ++ ts2) =
      ((processTokens env chain address ts1).1 ++
         (processTokens env chain address ts2).1,
       (processTokens env chain address ts1).2 ++
         (processTokens env chain address ts2).2) := by
  induction ts1 with
  | nil => simp [processTokens]
  | cons t rest ih =>
    simp only [List.cons_append, processTokens]
    cases perEntryExplicit env chain address t with
    | error e => simp [ih]
    | ok o => cases o <;> simp [ih]

theorem processTokens_coin_id_none {env : Env} {chain address : String}
    (ts : List TokenSpec) :
    ((processTokens env chain address ts).1.all
      (fun l => l.coin_id == none)) = true := by
  induction ts with
  | nil => simp [processTokens]
  | cons t rest ih =>
    simp only [processTokens]
    cases hpe : perEntryExplicit env chain address t with
    | error e => simpa using ih
    | ok o =>
      cases o with
      | none => simpa using ih
      | some l =>
        simp only [List.all_cons, Bool.and_eq_true, beq_iff_eq]
        exact ⟨(perEntryExplicit_ok_some hpe).1, ih⟩

theorem processTokens_contracts_sublist {env : Env} {chain address : String}
    (ts : List TokenSpec) :
    List.Sublist ((processTokens env chain address ts).1.map TokenLine.contract)
      ((explicitContracts ts).map some) := by
  induction ts with
  | nil => simp [processTokens, explicitContracts]
  | cons t rest ih =>
    simp only [processTokens, explicitContracts, List.filterMap]
    cases hpe : perEntryExplicit env chain address t with
    | error e =>
      cases hc : t.contract with
      | none => simpa [explicitContracts] using ih
      | some c =>
        by_cases hce : c = ""
        · subst hce; simpa [hc, explicitContracts] using ih
        · simpa [hc, hce, explicitContracts] using List.Sublist.cons _ ih
    | ok o =>
      cases o with
      | none =>
        rcases hc : t.contract with - | c
        · simpa [hc, explicitContracts] using ih
        · by_cases hce : c = ""
          · subst hce; simpa [hc, explicitContracts] using ih
          · simpa [hc, hce, explicitContracts] using List.Sublist.cons _ ih
      | some l =>
        obtain ⟨-, -, hcon, -⟩ := perEntryExplicit_ok_some hpe
        rcases hc : t.contract with - | c
        · rw [hc] at hcon
          exact absurd hpe (by simp [perEntryExplicit_skip (Or.inl hc)])
        · have hce : c ≠ "" := by
            intro hce
            subst hce
            have := @perEntryExplicit_skip env chain address t (Or.inr hc)
            rw [this] at hpe
            exact absurd hpe (by simp)
          rw [hc] at hcon
          simp only [hc, hce, if_neg hce, explicitContracts, List.map, List.map_cons]
          exact (List.cons_sublist_cons.mpr ih).trans
            (by rw [hcon]; exact List.Sublist.refl _)

theorem processTokens_errors_tagged {env : Env} {chain address : String}
    (ts : List TokenSpec) :
    ((processTokens env chain address ts).2.all
      (fun e => e.data.take 12 == "token_error:".data)) = true := by
  induction ts with
  | nil => simp [processTokens]
  | cons t rest ih =>
    simp only [processTokens]
    cases perEntryExplicit env chain address t with
    | error e =>
      simp only [List.all_cons, Bool.and_eq_true, beq_iff_eq]
      constructor
      · have hlen : ("token_error:".data).length = 12 := by decide
        have : ("token_error:" ++ e).data = "token_error:".data ++ e.data := by
          simp
        simp only [this]
        exact List.take_left' hlen
      · exact ih
    | ok o => cases o <;> simpa using ih

/-! ## C8: explicit tokens without a contract are silently skipped -/

/-- C8: an explicit token entry whose contract field is missing or empty
contributes nothing to the result: deleting it from the tokens list leaves
compute_balance_for_chain unchanged (no token line, no error entry). -/
theorem contractless_token_skipped (env : Env) (chain address : String)
    (coin_ids : List String) (ts1 ts2 : List TokenSpec) (t : TokenSpec)
    (h : t.contract = none ∨ t.contract = some "") :
    compute_balance_for_chain env chain address coin_ids (ts1 ++ t :: ts2) =
      compute_balance_for_chain env chain address coin_ids (ts1 ++ ts2) := by
  have h1 : processTokens env chain address (ts1 ++ t :: ts2) =
      processTokens env chain address (ts1 ++ ts2) := by
    rw [processTokens_append, processTokens_append]
    have h2 : processTokens env chain address (t :: ts2) =
        processTokens env chain address ts2 := by
      simp [processTokens, perEntryExplicit_skip h]
    rw [h2]
  simp only [compute_balance_for_chain, h1]

/-- Witness: dropping the contract-less entry tNoContract from an
all-upstream-fail ethereum request leaves the result unchanged. -/
theorem contractless_token_skipped_witness :
    compute_balance_for_chain envFail "ethereum" "0xa" [] ([] ++ tNoContract :: []) =
      compute_balance_for_chain envFail "ethereum" "0xa" [] ([] ++ []) :=
  contractless_token_skipped envFail "ethereum" "0xa" [] [] [] tNoContract
    (Or.inl rfl)

/-! ## C9: explicit tokens default to the request chain -/

/-- C9: an explicit token entry with an absent or empty chain field is
processed exactly as if its chain were the request chain, and any line it
produces reports that chain and a balance fetched on that chain. -/
theorem token_chain_defaults (env : Env) (chain address : String)
    (coin_ids : List String) (ts1 ts2 : List TokenSpec) (t : TokenSpec)
    (l : TokenLine) (h : t.chain = none ∨ t.chain = some "") :
    (compute_balance_for_chain env chain address coin_ids (ts1 ++ t :: ts2) =
      compute_balance_for_chain env chain address coin_ids
        (ts1 ++ { t with chain := some chain } :: ts2)) ∧
    (perEntryExplicit env chain address t = .ok (some l) →
      l.chain = some chain ∧
      l.balance = (get_erc20_balance env chain
        ((t.contract.map JVal.str).getD .null) address).getD 0) := by
  have htc : tchainOf t chain = chain := by
    rcases h with h | h <;> simp [tchainOf, h]
  have htc2 : tchainOf { t with chain := some chain } chain = chain := by
    simp [tchainOf]
  have hpe : perEntryExplicit env chain address t =
      perEntryExplicit env chain address { t with chain := some chain } := by
    simp only [perEntryExplicit, htc, htc2]
  constructor
  · have h1 : processTokens env chain address (ts1 ++ t :: ts2) =
        processTokens env chain address
          (ts1 ++ { t with chain := some chain } :: ts2) := by
      rw [processTokens_append, processTokens_append]
      have h2 : processTokens env chain address (t :: ts2) =
          processTokens env chain address ({ t with chain := some chain } :: ts2) := by
        simp only [processTokens, hpe]
      rw [h2]
    simp only [compute_balance_for_chain, h1]
  · intro hok
    obtain ⟨-, hch, -, hbal⟩ := perEntryExplicit_ok_some hok
    rw [htc] at hch hbal
    exact ⟨hch, hbal⟩

/-- Witness: the chain-less entry tNoChain behaves as an ethereum entry,
and its line (when produced) reports chain ethereum with the balance
fetched there. -/
theorem token_chain_defaults_witness :
    (compute_balance_for_chain envFail "ethereum" "0xa" [] ([] ++ tNoChain :: []) =
      compute_balance_for_chain envFail "ethereum" "0xa" []
        ([] ++ { tNoChain with chain := some "ethereum" } :: [])) ∧
    (perEntryExplicit envFail "ethereum" "0xa" tNoChain = .ok (some c9Line) →
      c9Line.chain = some "ethereum" ∧
      c9Line.balance = (get_erc20_balance envFail "ethereum"
        ((tNoChain.contract.map JVal.str).getD .null) "0xa").getD 0) :=
  token_chain_defaults envFail "ethereum" "0xa" [] [] [] tNoChain c9Line
    (Or.inl rfl)

/-! ## C10: explicit tokens on an unconfigured chain -/

/-- C10: an explicit token entry whose (possibly defaulted) chain has no
configured RPC endpoint still yields a token line: balance 0, usd_value 0
(computed from the zero balance), no enrichment, and the entry appends
nothing to errors (its processing succeeds). -/
theorem unconfigured_chain_zero_line (env : Env) (chain address : String)
    (t : TokenSpec) (c : String) (hc : t.contract = some c) (hne : c ≠ "")
    (hrpc : rpcConfigured env (tchainOf t chain) = false) :
    perEntryExplicit env chain address t = .ok (some (zeroRpcLine chain t c)) ∧
    (zeroRpcLine chain t c).balance = 0 ∧
    (zeroRpcLine chain t c).usd_value = 0 := by
  refine ⟨?_, rfl, rfl⟩
  have hw3 : get_web3 env (tchainOf t chain) = false := by
    simp [get_web3, hrpc]
  have hbal : get_erc20_balance env (tchainOf t chain) (.str c) address = none := by
    simp [get_erc20_balance, hw3]
  have hfind : PLATFORM_TO_CHAIN_KEY.find?
      (fun kv => kv.2 == tchainOf t chain) = none := by
    rw [List.find?_eq_none]
    intro kv hkv hp
    have h2 : kv.2 = tchainOf t chain := by simpa using hp
    fin_cases hkv <;>
      (rw [← h2] at hrpc; simp [rpcConfigured, defaultRpcKeys] at hrpc)
  simp only [perEntryExplicit, hc, if_neg hne, hfind, hbal, zeroRpcLine,
    Option.map_none, Option.bind_none, Option.getD_none]
  rcases hs : t.symbol with - | s0
  · rcases hn : t.name with - | n0 <;>
      simp [pyOr, truthy, pyUpper, hs, hn, zeroRpcLine]
  · rcases hn : t.name with - | n0 <;> by_cases hs0 : s0 = "" <;>
      simp [pyOr, truthy, pyUpper, hs, hn, hs0, zeroRpcLine]

/-- Witness: the dogechain entry tDoge (dogechain has no RPC endpoint)
still yields its zero-valued token line and no error. -/
theorem unconfigured_chain_zero_line_witness :
    perEntryExplicit envFail "ethereum" "0xa" tDoge =
      .ok (some (zeroRpcLine "ethereum" tDoge "0xc1")) ∧
    (zeroRpcLine "ethereum" tDoge "0xc1").balance = 0 ∧
    (zeroRpcLine "ethereum" tDoge "0xc1").usd_value = 0 :=
  unconfigured_chain_zero_line envFail "ethereum" "0xa" tDoge "0xc1"
    rfl (by decide) (by decide)

/-! ## C4: deduplication and native-chain exclusion -/

/-- C4 (counterexample): for the request chain ethereum with coin ids
eth, eth, sol, the result contains one token line with coin id eth, not
zero: eth is not a key of NATIVE_COIN_TO_CHAIN, so the native-chain
exclusion does not fire for it. -/
theorem eth_line_emitted_counterexample :
    coinIdCount
      (compute_balance_for_chain envC4 "ethereum" "0xa" ["eth", "eth", "sol"] [])
      "eth" = 1 := by
  with_unfolding_all decide

/-- C4 (amended): the duplicated list eth, eth, sol on an ethereum request
yields exactly one token line for eth and exactly one for sol whenever a
result is produced: dedup collapses the duplicate, and neither id is
excluded because neither is a key of NATIVE_COIN_TO_CHAIN (only canonical
ids such as ethereum are). -/
theorem dedup_eth_sol_single_lines (env : Env) (address : String)
    (tokens : List TokenSpec) (r : AggResult)
    (h : compute_balance_for_chain env "ethereum" address
      ["eth", "eth", "sol"] tokens = .ok r) :
    (r.tokens.filterMap TokenLine.coin_id).count "eth" = 1 ∧
    (r.tokens.filterMap TokenLine.coin_id).count "sol" = 1 := by
  obtain ⟨coinLines, hcl, hr⟩ := compute_ok_inv h
  have hmap := processCoinIds_map_coin_id hcl
  have hids : (normalizeCoinIds ["eth", "eth", "sol"]).filter
      (fun cid => !(NATIVE_COIN_TO_CHAIN.lookup cid == some "ethereum")) =
      ["eth", "sol"] := by with_unfolding_all decide
  rw [hids] at hmap
  have hexp := @processTokens_coin_id_none env "ethereum" address tokens
  subst hr
  have hfm : (coinLines ++ (processTokens env "ethereum" address tokens).1).filterMap
      TokenLine.coin_id = ["eth", "sol"] := by
    rw [List.filterMap_append]
    have h1 : coinLines.filterMap TokenLine.coin_id = ["eth", "sol"] := by
      have : coinLines.filterMap TokenLine.coin_id =
          (coinLines.map TokenLine.coin_id).filterMap id := by
        rw [List.filterMap_map]; rfl
      rw [this, hmap]
      rfl
    have h2 : (processTokens env "ethereum" address tokens).1.filterMap
        TokenLine.coin_id = [] := by
      rw [List.filterMap_eq_nil_iff]
      intro l hl
      have := List.all_eq_true.mp hexp l hl
      simpa using this
    rw [h1, h2, List.append_nil]
  simp [hfm]

/-- Witness: against envC4 the eth/eth/sol request produces exactly one
eth line and one sol line. -/
theorem dedup_eth_sol_single_lines_witness :
    (rC4.tokens.filterMap TokenLine.coin_id).count "eth" = 1 ∧
    (rC4.tokens.filterMap TokenLine.coin_id).count "sol" = 1 :=
  dedup_eth_sol_single_lines envC4 "0xa" [] rC4 (by with_unfolding_all decide)

/-! ## C5: ordering of the tokens sequence -/

/-- C5: the tokens sequence of any produced result is the coin-id-driven
lines, one per remaining deduplicated coin id and labelled by it in that
order, followed by the explicit-token lines, which carry no coin id and
whose contracts form an order-preserving subsequence of the explicit
entries' contracts; the native line lives in a separate field of
AggResult and is never an element of tokens. -/
theorem tokens_ordering (env : Env) (chain address : String)
    (coin_ids : List String) (tokens : List TokenSpec) (r : AggResult)
    (h : compute_balance_for_chain env chain address coin_ids tokens = .ok r) :
    ((r.tokens.take (remainingIds chain coin_ids).length).map TokenLine.coin_id
        = (remainingIds chain coin_ids).map some) ∧
    ((r.tokens.drop (remainingIds chain coin_ids).length).all
        (fun l => l.coin_id == none) = true) ∧
    List.Sublist
      ((r.tokens.drop (remainingIds chain coin_ids).length).map TokenLine.contract)
      ((explicitContracts tokens).map some) := by
  obtain ⟨coinLines, hcl, hr⟩ := compute_ok_inv h
  have hmap := processCoinIds_map_coin_id hcl
  have hlen : coinLines.length = (remainingIds chain coin_ids).length := by
    have := congrArg List.length hmap
    simpa [remainingIds] using this
  subst hr
  refine ⟨?_, ?_, ?_⟩
  · rw [List.take_left' hlen, hmap]
    simp [remainingIds]
  · rw [List.drop_left' hlen]
    exact processTokens_coin_id_none tokens
  · rw [List.drop_left' hlen]
    exact processTokens_contracts_sublist tokens

/-- Witness: the eth/eth/sol request with the explicit tDoge entry orders
its tokens as the two coin lines then the explicit line. -/
theorem tokens_ordering_witness :
    ((rC5.tokens.take (remainingIds "ethereum" ["eth", "eth", "sol"]).length).map
        TokenLine.coin_id
      = (remainingIds "ethereum" ["eth", "eth", "sol"]).map some) ∧
    ((rC5.tokens.drop (remainingIds "ethereum" ["eth", "eth", "sol"]).length).all
        (fun l => l.coin_id == none) = true) ∧
    List.Sublist
      ((rC5.tokens.drop
          (remainingIds "ethereum" ["eth", "eth", "sol"]).length).map
        TokenLine.contract)
      ((explicitContracts [tDoge]).map some) :=
  tokens_ordering envC4 "ethereum" "0xa" ["eth", "eth", "sol"] [tDoge] rC5
    (by with_unfolding_all decide)

/-! ## C3: unavailable bsc RPC endpoint -/

/-- C3 (counterexample): with the bsc RPC failing on every call and the
market provider quoting binancecoin, compute_balance_for_chain returns a
result whose native balance is 0.0 with a non-null usd_price, but whose
errors list is empty: no native_balance_error entry is appended, contrary
to the claim. -/
theorem bsc_rpc_failure_counterexample :
    compute_balance_for_chain envC3 "bsc" "0xd" [] [] = .ok rC3 ∧
    rC3.errors = [] := by
  constructor
  · with_unfolding_all decide
  · rfl

theorem nativeTryBody_bsc_ok {env : Env} {address : String}
    (hbal : get_native_evm_balance env "bsc" address = none)
    (hprice : ∀ m ∈ env.marketsFn ["binancecoin"],
      (pyFloat (pyOr (m.current_price.getD (.num 0)) (.num 0))).isOk = true) :
    ∃ n, nativeTryBody env "bsc" address = .ok n ∧ n.balance = 0 := by
  have hd : defaultRpcKeys.contains "bsc" = true := by decide
  have hcfg : rpcConfigured env "bsc" = true := by
    unfold rpcConfigured
    rw [hd, Bool.true_or]
  have hcond : (rpcConfigured env "bsc" && !("bsc" == "solana")) = true := by
    rw [hcfg]; decide
  have hnc : (NATIVE_COIN_TO_CHAIN.find? (fun kv => kv.2 == "bsc")).map
      (fun kv => kv.1) = some "binancecoin" := by decide
  simp only [nativeTryBody, hcond, hnc, if_true]
  cases hm : env.marketsFn ["binancecoin"] with
  | nil =>
    simp only [hm]
    exact ⟨_, rfl, by simp [hbal]⟩
  | cons m rest =>
    have hok := hprice m (by rw [hm]; exact List.mem_cons_self m rest)
    cases hpf : pyFloat (pyOr (m.current_price.getD (.num 0)) (.num 0)) with
    | error e =>
      rw [hpf] at hok
      exact absurd hok (by simp [Except.isOk, Except.toBool])
    | ok p =>
      simp only [hm, hpf]
      exact ⟨_, rfl, by simp [hbal]⟩

/-- C3 (amended): for chain bsc with every native-balance RPC call
failing and well-formed market data, the result has native.balance == 0.0
and usd_price possibly non-null, but NO native_balance_error entry: the
RPC failure is swallowed inside get_native_evm_balance (logged only), so
every entry of errors comes from the explicit-token loop and carries the
token_error tag. -/
theorem bsc_rpc_failure_silent (env : Env) (address : String)
    (coin_ids : List String) (tokens : List TokenSpec) (r : AggResult)
    (hbal : get_native_evm_balance env "bsc" address = none)
    (hprice : ∀ m ∈ env.marketsFn ["binancecoin"],
      (pyFloat (pyOr (m.current_price.getD (.num 0)) (.num 0))).isOk = true)
    (h : compute_balance_for_chain env "bsc" address coin_ids tokens = .ok r) :
    (r.native.map NativeLine.balance = some 0) ∧
    (r.errors.all (fun e => e.data.take 12 == "token_error:".data) = true) := by
  obtain ⟨n, hn, hnb⟩ := nativeTryBody_bsc_ok hbal hprice
  have hns : nativeStep env "bsc" address = (some n, []) := by
    simp [nativeStep, hn]
  obtain ⟨coinLines, -, hr⟩ := compute_ok_inv h
  subst hr
  constructor
  · simp [hns, hnb]
  · simp only [hns]
    simpa using processTokens_errors_tagged tokens

/-- Witness: the envC3 scenario satisfies the amended claim. -/
theorem bsc_rpc_failure_silent_witness :
    (rC3.native.map NativeLine.balance = some 0) ∧
    (rC3.errors.all (fun e => e.data.take 12 == "token_error:".data) = true) :=
  bsc_rpc_failure_silent envC3 "0xd" [] [] rC3
    (by with_unfolding_all decide)
    (by intro m hm; fin_cases hm; decide)
    (by with_unfolding_all decide)

/-! ## C6: contract resolution preference order -/

theorem pairLookup_mem {l : List (String × JVal)} {k : String} {v : JVal}
    (h : l.lookup k = some v) : (k, v) ∈ l := by
  induction l with
  | nil => simp [List.lookup] at h
  | cons kv rest ih =>
    obtain ⟨k0, v0⟩ := kv
    rw [List.lookup] at h
    by_cases hk : (k == k0)
    · simp only [hk] at h
      simp only [Option.some.injEq] at h
      have : k = k0 := by simpa using hk
      subst this
      subst h
      exact List.mem_cons_self _ _
    · simp only [Bool.not_eq_true] at hk
      rw [hk] at h
      exact List.mem_cons_of_mem _ (ih h)

/-- C6: contract resolution follows the full fixed preference order: for
any split of the preference list, when every earlier preferred family has
no truthy entry and family p has one, the resolver returns the entry at p
(instantiating the split at pre = [] gives: a truthy ethereum entry always
wins, in particular for a coin listed on both polygon-pos and ethereum);
when no preferred family has a truthy entry it falls back to the first
truthy entry in map order; and when the map has no truthy entry at all it
returns none. -/
theorem contract_preference_order (env : Env) (cid : String)
    (platforms : List (String × JVal)) (pre post : List String) (p : String)
    (v : JVal) (w : String × JVal)
    (hd : env.coinDetail cid = some platforms) :
    (preferList = pre ++ p :: post →
      pre.all (fun q => !truthy ((platforms.lookup q).getD .null)) = true →
      truthy ((platforms.lookup p).getD .null) = true →
      find_contract_for_coin_id env cid =
        some ⟨(platforms.lookup p).getD .null, p⟩) ∧
    (platforms.lookup "ethereum" = some v → truthy v = true →
      find_contract_for_coin_id env cid = some ⟨v, "ethereum"⟩) ∧
    ((preferList.all
        (fun q => !truthy ((platforms.lookup q).getD .null)) = true) →
      platforms.find? (fun kv => truthy kv.2) = some w →
      find_contract_for_coin_id env cid = some ⟨w.2, w.1⟩) ∧
    ((platforms.all (fun kv => !truthy kv.2) = true) →
      find_contract_for_coin_id env cid = none) := by
  refine ⟨?_, ?_, ?_, ?_⟩
  · intro hsplit hpre htr
    have hprenone : pre.find?
        (fun q => truthy ((platforms.lookup q).getD .null)) = none := by
      rw [List.find?_eq_none]
      intro q hq
      have := List.all_eq_true.mp hpre q hq
      simp only [Bool.not_eq_true'] at this
      simp [this]
    have hfound : preferList.find?
        (fun q => truthy ((platforms.lookup q).getD .null)) = some p := by
      rw [hsplit, List.find?_append, hprenone, Option.none_or, List.find?_cons,
        htr]
    simp [find_contract_for_coin_id, hd, hfound]
  · intro hlk htr
    simp [find_contract_for_coin_id, hd, preferList, List.find?, hlk, htr]
  · intro hall hfw
    have hnone : preferList.find?
        (fun q => truthy ((platforms.lookup q).getD .null)) = none := by
      rw [List.find?_eq_none]
      intro q hq
      have := List.all_eq_true.mp hall q hq
      simp only [Bool.not_eq_true'] at this
      simp [this]
    simp [find_contract_for_coin_id, hd, hnone, hfw]
  · intro hall
    have h1 : ∀ q, truthy ((platforms.lookup q).getD .null) = false := by
      intro q
      cases hlk : platforms.lookup q with
      | none => simp [truthy]
      | some v0 =>
        have := List.all_eq_true.mp hall _ (pairLookup_mem hlk)
        simpa using this
    have hnone : preferList.find?
        (fun q => truthy ((platforms.lookup q).getD .null)) = none := by
      rw [List.find?_eq_none]
      intro q hq
      simp [h1 q]
    have hnone2 : platforms.find? (fun kv => truthy kv.2) = none := by
      rw [List.find?_eq_none]
      intro kv hkv
      have := List.all_eq_true.mp hall kv hkv
      simpa using this
    simp [find_contract_for_coin_id, hd, hnone, hnone2]

/-- Witness: a coin with contracts on polygon-pos and binance-smart-chain
but not on ethereum resolves to the binance-smart-chain entry, the second
family of the preference order. -/
theorem contract_preference_order_witness :
    (preferList = ["ethereum"] ++ "binance-smart-chain" ::
        ["polygon-pos", "avalanche", "arbitrum-one", "optimistic-ethereum"] →
      List.all ["ethereum"]
        (fun q => !truthy ((platsC6.lookup q).getD .null)) = true →
      truthy ((platsC6.lookup "binance-smart-chain").getD .null) = true →
      find_contract_for_coin_id envC6 "token-x" =
        some ⟨(platsC6.lookup "binance-smart-chain").getD .null,
          "binance-smart-chain"⟩) ∧
    (platsC6.lookup "ethereum" = some (.str "0xETH") →
      truthy (.str "0xETH") = true →
      find_contract_for_coin_id envC6 "token-x" =
        some ⟨.str "0xETH", "ethereum"⟩) ∧
    ((preferList.all
        (fun q => !truthy ((platsC6.lookup q).getD .null)) = true) →
      platsC6.find? (fun kv => truthy kv.2) =
        some ("polygon-pos", .str "0xPOLY") →
      find_contract_for_coin_id envC6 "token-x" =
        some ⟨.str "0xPOLY", "polygon-pos"⟩) ∧
    ((platsC6.all (fun kv => !truthy kv.2) = true) →
      find_contract_for_coin_id envC6 "token-x" = none) :=
  contract_preference_order envC6 "token-x" platsC6 ["ethereum"]
    ["polygon-pos", "avalanche", "arbitrum-one", "optimistic-ethereum"]
    "binance-smart-chain" (.str "0xETH") ("polygon-pos", .str "0xPOLY")
    (by decide)

/-! ## C7: order-independent markets cache key -/

theorem charsLe_total : ∀ x y : List Char,
    charsLe x y = true ∨ charsLe y x = true := by
  intro x
  induction x with
  | nil => intro y; exact Or.inl rfl
  | cons a as ih =>
    intro y
    cases y with
    | nil => exact Or.inr rfl
    | cons b bs =>
      rcases Nat.lt_trichotomy a.toNat b.toNat with h | h | h
      · exact Or.inl (by simp [charsLe, h])
      · rcases ih bs with h2 | h2
        · exact Or.inl (by simp [charsLe, h, h2])
        · exact Or.inr (by simp [charsLe, h, h2])
      · exact Or.inr (by simp [charsLe, h])

theorem charsLe_trans : ∀ x y z : List Char,
    charsLe x y = true → charsLe y z = true → charsLe x z = true := by
  intro x
  induction x with
  | nil => intro y z h1 h2; rfl
  | cons a as ih =>
    intro y z h1 h2
    cases y with
    | nil => exact absurd h1 (by simp [charsLe])
    | cons b bs =>
      cases z with
      | nil => exact absurd h2 (by simp [charsLe])
      | cons c cs =>
        simp only [charsLe] at h1 h2 ⊢
        by_cases hab : a.toNat < b.toNat
        · by_cases hbc : b.toNat < c.toNat
          · simp [Nat.lt_trans hab hbc]
          · by_cases hcb : c.toNat < b.toNat
            · simp [hbc, hcb] at h2
            · have : a.toNat < c.toNat := by omega
              simp [this]
        · by_cases hba : b.toNat < a.toNat
          · simp [hab, hba] at h1
          · by_cases hbc : b.toNat < c.toNat
            · have : a.toNat < c.toNat := by omega
              simp [this]
            · by_cases hcb : c.toNat < b.toNat
              · simp [hbc, hcb] at h2
              · have h3 : ¬ a.toNat < c.toNat := by omega
                have h4 : ¬ c.toNat < a.toNat := by omega
                simp only [hab, hba, if_false, if_neg hab, if_neg hba] at h1
                simp only [if_neg hbc, if_neg hcb] at h2
                simp only [if_neg h3, if_neg h4]
                exact ih bs cs h1 h2

theorem char_toNat_inj {a b : Char} (h : a.toNat = b.toNat) : a = b := by
  simpa [Char.ext_iff, UInt32.ext_iff] using h

theorem charsLe_antisymm : ∀ x y : List Char,
    charsLe x y = true → charsLe y x = true → x = y := by
  intro x
  induction x with
  | nil =>
    intro y h1 h2
    cases y with
    | nil => rfl
    | cons b bs => exact absurd h2 (by simp [charsLe])
  | cons a as ih =>
    intro y h1 h2
    cases y with
    | nil => exact absurd h1 (by simp [charsLe])
    | cons b bs =>
      simp only [charsLe] at h1 h2
      by_cases hab : a.toNat < b.toNat
      · by_cases hba : b.toNat < a.toNat
        · omega
        · simp [hab, hba] at h2
      · by_cases hba : b.toNat < a.toNat
        · simp [hab, hba] at h1
        · have heq : a = b := char_toNat_inj (by omega)
          subst heq
          simp only [if_neg hab, if_neg hba] at h1 h2
          rw [ih bs h1 h2]

instance : IsTotal String strLeR :=
  ⟨fun a b => charsLe_total a.data b.data⟩

instance : IsTrans String strLeR :=
  ⟨fun a b c h1 h2 => charsLe_trans a.data b.data c.data h1 h2⟩

instance : IsAntisymm String strLeR :=
  ⟨fun a b h1 h2 => by
    cases a with
    | mk da =>
      cases b with
      | mk db => exact congrArg String.mk (charsLe_antisymm da db h1 h2)⟩

/-- Permutations of the ids list produce the same cache key. -/
theorem marketsKey_perm {ids1 ids2 : List String} (hperm : ids1.Perm ids2) :
    marketsKey ids1 = marketsKey ids2 := by
  unfold marketsKey
  congr 1
  exact List.eq_of_perm_of_sorted
    ((List.perm_insertionSort strLeR ids1).trans
      (hperm.trans (List.perm_insertionSort strLeR ids2).symm))
    (List.sorted_insertionSort strLeR ids1)
    (List.sorted_insertionSort strLeR ids2)

theorem cacheLookup_cacheInsert (st : MarketsCache) (k : String)
    (e : MCacheEntry) : cacheLookup (cacheInsert st k e) k = some e := by
  induction st with
  | nil => simp [cacheInsert, cacheLookup]
  | cons kv rest ih =>
    obtain ⟨k0, e0⟩ := kv
    by_cases hk : k0 = k
    · simp [cacheInsert, cacheLookup, hk]
    · simp [cacheInsert, cacheLookup, hk, ih]

/-- C7: two cached_markets calls with id lists that are permutations of
one another use the same cache key; after a first call that misses and
fetches successfully, a second call with the reordered list within the 12
second TTL returns the fetched data from cache, leaves the cache
unchanged, and issues no upstream fetch (flag false). -/
theorem markets_cache_order_invariant (env : Env) (st0 : MarketsCache)
    (t1 t2 : ℚ) (ids1 ids2 : List String) (d1 : List MarketEntry)
    (hperm : ids1.Perm ids2) (hne : ids1 ≠ [])
    (hmiss : cacheLookup st0 (marketsKey ids1) = none)
    (hfetch : env.fetchMarkets (marketsKey ids1) ids1.length t1 = some d1)
    (htime : t2 - t1 < 12) :
    marketsKey ids1 = marketsKey ids2 ∧
    cached_markets env ((cached_markets env st0 t1 ids1).2.1) t2 ids2 =
      (d1, (cached_markets env st0 t1 ids1).2.1, false) := by
  have hkey := marketsKey_perm hperm
  have hne2 : ids2 ≠ [] := by
    intro h
    subst h
    exact hne hperm.eq_nil
  have hc1 : cached_markets env st0 t1 ids1 =
      (d1, cacheInsert st0 (marketsKey ids1) ⟨t1, d1⟩, true) := by
    simp [cached_markets, hne, hmiss, hfetch]
  refine ⟨hkey, ?_⟩
  rw [hc1]
  simp [cached_markets, hne2, ← hkey, cacheLookup_cacheInsert, htime]

/-- Witness: the bitcoin,ethereum and ethereum,bitcoin queries share the
key and the second call is served from cache. -/
theorem markets_cache_order_invariant_witness :
    marketsKey ["bitcoin", "ethereum"] = marketsKey ["ethereum", "bitcoin"] ∧
    cached_markets envC7
        ((cached_markets envC7 [] 0 ["bitcoin", "ethereum"]).2.1) 5
        ["ethereum", "bitcoin"] =
      ([btcE], (cached_markets envC7 [] 0 ["bitcoin", "ethereum"]).2.1, false) :=
  markets_cache_order_invariant envC7 [] 0 5 ["bitcoin", "ethereum"]
    ["ethereum", "bitcoin"] [btcE] (by decide) (by decide) rfl
    (by decide) (by with_unfolding_all decide)

end Payme
